import Mathlib

/-!
Shallow embedding of the job-lifecycle core of the voyager-verifier
repository: the protocol client status classification
(src/src/api/client.rs), the Scarb.toml dev-dependencies filter, the
bounded poll-until-done engine, the batch orchestrator
(src/src/verification.rs) and the history ledger record update
(src/src/history.rs).  Strings are modelled as Lean `String` (or
`List Char` where line-splitting proofs need it); timestamps as `Nat`;
the effectful HTTP calls as oracle functions supplied per step.
-/

namespace Voyager

/-- Job status enumeration.  The defining file (src/src/api/types.rs) is
not among the sources; the variant set is pinned by the exhaustive match
in `ApiClient::get_job_status` (src/src/api/client.rs lines 313-359) and
by spec section 3; the display strings are pinned by the history SQL
literals and the unit tests in src/src/history.rs. -/
inductive VerifyJobStatus where
  | Submitted
  | Processing
  | Compiled
  | Success
  | Fail
  | CompileFailed
  | Unknown
deriving DecidableEq, Repr

/-- Display string of a status, as stored in the ledger
(src/src/history.rs tests pin "Submitted" and "Success"; the SQL in
`get_stats` pins the other variants). -/
def VerifyJobStatus.toStr : VerifyJobStatus → String
  | .Submitted => "Submitted"
  | .Processing => "Processing"
  | .Compiled => "Compiled"
  | .Success => "Success"
  | .Fail => "Fail"
  | .CompileFailed => "CompileFailed"
  | .Unknown => "Unknown"

/-- Terminal statuses, as matched in `VerificationRecord::update_status`
(src/src/history.rs lines 91-94). -/
def VerifyJobStatus.isTerminal : VerifyJobStatus → Bool
  | .Success => true
  | .Fail => true
  | .CompileFailed => true
  | _ => false

/-- The job record returned by the status endpoint
(`VerificationJob`, src/src/api/models.rs, absent from the sources; the
fields are pinned by their uses in src/src/api/client.rs lines 310-353
and spec section 3). -/
structure VerificationJob where
  job_id : String
  status : VerifyJobStatus
  status_description : Option String
  message : Option String
  error_category : Option String
deriving DecidableEq, Repr

/-- `RequestFailure` from src/src/utils/errors.rs: URL, HTTP status code
and message of a failed request.  The URL is kept as a string and the
status code as a `Nat`. -/
structure RequestFailure where
  url : String
  status : Nat
  msg : String
deriving DecidableEq, Repr

/-- Service-reported terminal failures (`VerificationError`,
src/src/api/errors.rs, absent from the sources; the two variants are
pinned by `display_verbose_error` in src/src/verification.rs and the
constructor calls in src/src/api/client.rs). -/
inductive VerificationError where
  | CompilationFailure (msg : String)
  | VerificationFailure (msg : String)
deriving DecidableEq, Repr

/-- Client error taxonomy (`ApiClientError`, src/src/api/errors.rs,
absent from the sources; the variants are pinned by their construction
sites in src/src/api/client.rs: `CannotBeBase`, `JobNotFound`,
`InProgress`, `from(RequestFailure)`, `from(VerificationError)`, the
reqwest transport error, and the serde parse error). -/
inductive ApiClientError where
  | CannotBeBase (url : String)
  | JobNotFound (job_id : String)
  | Failure (f : RequestFailure)
  | Verify (e : VerificationError)
  | InProgress
  | Transport (msg : String)
  | Serde (msg : String)
deriving DecidableEq, Repr

/-- Contiguous-substring occurrence test on character lists. -/
def infixOfAux (pat : List Char) : List Char → Bool
  | [] => pat.isEmpty
  | c :: rest => pat.isPrefixOf (c :: rest) || infixOfAux pat rest

/-- Rust `str::contains(pat)`: substring test. -/
def strContains (hay pat : String) : Bool :=
  infixOfAux pat.data hay.data

/-- Fixed message substituted by `get_job_status` when the failure text
carries the payload-too-large marker (src/src/api/client.rs line 325). -/
def payloadTooLargeJobMsg : String :=
  "Request payload too large. The project files exceed the maximum allowed size of 10MB. Try reducing file sizes or removing unnecessary files."

/-- Fixed message substituted by `get_job_status` for compile failures
that carry the compilation-backend connectivity pattern
(src/src/api/client.rs line 346). -/
def compileServiceUnavailableMsg : String :=
  "Cairo compilation service is currently unavailable. Please try again later."

/-- The connectivity pattern matched for compile failures
(src/src/api/client.rs line 345). -/
def compileServicePattern : String :=
  "Couldn't connect to cairo compilation service"

/-- The raw failure text of a job: message, else status description,
else "unknown failure" (src/src/api/client.rs lines 316-319 and
335-338). -/
def failErrorMessage (message status_description : Option String) : String :=
  ((message <|> status_description).getD "unknown failure")

/-- Pattern-enriched text for a `Fail` job (src/src/api/client.rs lines
321-328). -/
def failParsedError (message status_description : Option String) : String :=
  let error_message := failErrorMessage message status_description
  if strContains error_message "Payload too large"
      || strContains error_message "payload too large" then
    payloadTooLargeJobMsg
  else
    error_message

/-- Pattern-enriched text for a `CompileFailed` job
(src/src/api/client.rs lines 340-349). -/
def compileParsedError (message status_description : Option String) : String :=
  let error_message := failErrorMessage message status_description
  if strContains error_message "Payload too large"
      || strContains error_message "payload too large" then
    payloadTooLargeJobMsg
  else if strContains error_message compileServicePattern then
    compileServiceUnavailableMsg
  else
    error_message

/-- The classification step of `ApiClient::get_job_status`
(src/src/api/client.rs lines 313-359): given the parsed job record of a
200 response, return the record on `Success`, `none` on the four
non-terminal statuses, and a classified error on `Fail` and
`CompileFailed`. -/
def getJobStatusClassify (data : VerificationJob) :
    Except ApiClientError (Option VerificationJob) :=
  match data.status with
  | .Success => .ok (some data)
  | .Fail =>
      .error (.Verify (.VerificationFailure
        (failParsedError data.message data.status_description)))
  | .CompileFailed =>
      .error (.Verify (.CompilationFailure
        (compileParsedError data.message data.status_description)))
  | .Submitted => .ok none
  | .Compiled => .ok none
  | .Processing => .ok none
  | .Unknown => .ok none

/-- The HTTP-facing part of `ApiClient::get_job_status`
(src/src/api/client.rs lines 282-307): 404 is job-not-found, other
non-200 statuses are request failures carrying status and body, a 200
body that fails to parse is a hard error, and a parsed 200 body is
classified.  The parsed view of the body is supplied as
`parsed : Option VerificationJob` (serde is external). -/
def getJobStatus (job_id : String) (url : String) (httpStatus : Nat)
    (body : String) (parsed : Option VerificationJob) :
    Except ApiClientError (Option VerificationJob) :=
  if httpStatus = 404 then .error (.JobNotFound job_id)
  else if httpStatus ≠ 200 then .error (.Failure ⟨url, httpStatus, body⟩)
  else
    match parsed with
    | none => .error (.Failure ⟨url, 200, "Failed to parse JSON response"⟩)
    | some data => getJobStatusClassify data

/-- Fixed message for an HTTP 413 on submission (src/src/api/client.rs
line 246). -/
def payloadTooLargeSubmitMsg : String :=
  "Request payload too large. Maximum allowed size is 10MB."

/-- Response-status handling of `ApiClient::verify_class`
(src/src/api/client.rs lines 233-258).  `errorField` is the serde view
`Error { error }` of the body consumed by the 400 branch and
`dispatchJobId` the `VerificationJobDispatch { job_id }` view consumed
on 200; the raw body text is consumed by the catch-all branch. -/
def verifyClassHandleResponse (url : String) (httpStatus : Nat)
    (body : String) (errorField : Option String)
    (dispatchJobId : Option String) : Except ApiClientError String :=
  if httpStatus = 200 then
    match dispatchJobId with
    | some id => .ok id
    | none => .error (.Serde "invalid dispatch body")
  else if httpStatus = 400 then
    match errorField with
    | some e => .error (.Failure ⟨url, 400, e⟩)
    | none => .error (.Serde "invalid error body")
  else if httpStatus = 413 then
    .error (.Failure ⟨url, 413, payloadTooLargeSubmitMsg⟩)
  else
    .error (.Failure ⟨url, httpStatus, body⟩)

/-- Helper for Rust `str::lines`: finish the line accumulated in
reverse in `cur`, stripping the one carriage return that directly
precedes the line feed that ended it. -/
def finishLine (cur : List Char) : List Char :=
  match cur with
  | [] => []
  | c :: cs => if c = '\r' then cs.reverse else (c :: cs).reverse

/-- Accumulator of Rust `str::lines`: `cur` holds the current line in
reverse; lines are cut at each line feed and a trailing line feed
produces no final empty line. -/
def rustLinesAux (cur : List Char) : List Char → List (List Char)
  | [] => if cur.isEmpty then [] else [cur.reverse]
  | c :: rest =>
    if c = '\n' then finishLine cur :: rustLinesAux [] rest
    else rustLinesAux (c :: cur) rest

/-- Rust `str::lines` on a character list, as iterated by
`filter_scarb_toml_content` (src/src/api/client.rs line 104). -/
def rustLines (s : List Char) : List (List Char) :=
  rustLinesAux [] s

/-- Rust `str::trim_start` (Unicode-aware in Rust; modelled over
`Char.isWhitespace`, which covers the ASCII whitespace relevant to the
manifest syntax). -/
def trimStart (l : List Char) : List Char :=
  l.dropWhile Char.isWhitespace

/-- Rust `line.trim_start().starts_with("[dev-dependencies]")`
(src/src/api/client.rs line 106). -/
def devDepsHeaderLine (l : List Char) : Bool :=
  List.isPrefixOf "[dev-dependencies]".data (trimStart l)

/-- Rust `line.trim_start().starts_with('[')`
(src/src/api/client.rs line 114). -/
def sectionHeaderLine (l : List Char) : Bool :=
  match trimStart l with
  | '[' :: _ => true
  | _ => false

/-- The fixed comment substituted for a removed `[dev-dependencies]`
header (src/src/api/client.rs line 109). -/
def devDepsComment : List Char :=
  "# [dev-dependencies] section removed for remote compilation".data

/-- The line loop of `ApiClient::filter_scarb_toml_content`
(src/src/api/client.rs lines 101-132); the boolean is `in_dev_deps`. -/
def filterScarbLines (inDev : Bool) : List (List Char) → List (List Char)
  | [] => []
  | line :: rest =>
    if devDepsHeaderLine line then
      devDepsComment :: filterScarbLines true rest
    else if sectionHeaderLine line && !devDepsHeaderLine line then
      if inDev then
        [] :: line :: filterScarbLines false rest
      else
        line :: filterScarbLines false rest
    else if inDev then
      filterScarbLines true rest
    else
      line :: filterScarbLines inDev rest

/-- Rust `Vec::join("\n")` on character-list lines. -/
def joinNL : List (List Char) → List Char
  | [] => []
  | [l] => l
  | l :: rest => l ++ '\n' :: joinNL rest

/-- `ApiClient::filter_scarb_toml_content` (src/src/api/client.rs lines
100-135): drop every line of a `[dev-dependencies]` section, replace
each such section header by a fixed comment, and re-join the kept lines
with line feeds. -/
def filterScarbTomlContent (s : List Char) : List Char :=
  joinNL (filterScarbLines false (rustLines s))

/-- String-level wrapper of `filter_scarb_toml_content`, used when
building the submission file map. -/
def filterScarbTomlContentStr (s : String) : String :=
  (filterScarbTomlContent s.data).asString

/-- A file handed to `verify_class`: its relative name and its on-disk
content (the `fs::read_to_string` result for `FileInfo.path`,
src/src/api/client.rs line 177). -/
structure FileEntry where
  name : String
  content : String
deriving DecidableEq, Repr

/-- Rust `file.name == "Scarb.toml" || file.name.ends_with("/Scarb.toml")`
(src/src/api/client.rs line 180). -/
def isScarbTomlName (name : String) : Bool :=
  name = "Scarb.toml" || List.isSuffixOf "/Scarb.toml".data name.data

/-- The file-map construction loop of `ApiClient::verify_class`
(src/src/api/client.rs lines 175-194); the `HashMap` is modelled as the
association list of the inserted pairs in loop order. -/
def buildFilesMap : List FileEntry → List (String × String)
  | [] => []
  | f :: rest =>
    (f.name,
      if isScarbTomlName f.name then filterScarbTomlContentStr f.content
      else f.content) :: buildFilesMap rest

/-- A ledger record (`VerificationRecord`, src/src/history.rs lines
41-54); timestamps are modelled as `Nat` seconds. -/
structure VerificationRecord where
  id : Option Int
  job_id : String
  class_hash : String
  contract_name : String
  network : String
  status : String
  submitted_at : Nat
  completed_at : Option Nat
  package_name : Option String
  scarb_version : String
  cairo_version : String
  dojo_version : Option String
deriving DecidableEq, Repr

/-- `VerificationRecord::update_status` (src/src/history.rs lines
87-97): overwrite the status string, and when the new status is
terminal set `completed_at` to the current time (`Utc::now()` is
modelled as the explicit argument `now`). -/
def VerificationRecord.updateStatus (r : VerificationRecord)
    (status : VerifyJobStatus) (now : Nat) : VerificationRecord :=
  let r := { r with status := status.toStr }
  if status.isTerminal then { r with completed_at := some now } else r

/-- `HistoryDb::update_status` (src/src/history.rs lines 194-207): the
SQL UPDATE sets `status` and `completed_at` unconditionally on every
row whose `job_id` matches; the table is modelled as a record list. -/
def HistoryDb.updateStatus (db : List VerificationRecord)
    (job_id : String) (status : String) (completed_at : Option Nat) :
    List VerificationRecord :=
  db.map fun r =>
    if r.job_id = job_id then
      { r with status := status, completed_at := completed_at }
    else r

/-- One entry of the batch configuration (`ContractConfig`,
src/src/cli/config.rs lines 70-79). -/
structure ContractEntry where
  class_hash : String
  contract_name : String
  package : Option String
deriving DecidableEq, Repr

/-- `BatchContract` (src/src/verification.rs lines 538-542); the parsed
`ClassHash` is modelled as its string value. -/
structure BatchContract where
  class_hash : String
  contract_name : String
  package : Option String
deriving DecidableEq, Repr

/-- `BatchVerificationResult` (src/src/verification.rs lines 546-551). -/
structure BatchVerificationResult where
  contract : BatchContract
  job_id : Option String
  status : Option VerifyJobStatus
  error : Option String
deriving DecidableEq, Repr

/-- `BatchVerificationSummary` (src/src/verification.rs lines 555-559). -/
structure BatchVerificationSummary where
  total : Nat
  submitted : Nat
  results : List BatchVerificationResult
deriving DecidableEq, Repr

/-- The submission loop of `submit_batch` (src/src/verification.rs
lines 597-690).  The two effectful calls are supplied as oracles:
`parseClassHash` models `ClassHash::new` (src/src/core/class_hash.rs is
not among the sources; parsing either yields the parsed hash, modelled
as its string value, or an error text) and `submitOutcome i` models the
`submit(...)` call for the contract at position `i` (job id on success,
`"dry-run"` in dry-run mode, error text on failure).  A contract whose
class hash fails to parse is skipped via `continue` when `fail_fast` is
unset: no result is pushed for it. -/
def submitBatchResults (parseClassHash : String → Except String String)
    (submitOutcome : Nat → Except String String) (fail_fast : Bool) :
    Nat → List ContractEntry → Except String (List BatchVerificationResult)
  | _, [] => .ok []
  | i, c :: rest =>
    match parseClassHash c.class_hash with
    | .error e =>
      if fail_fast then .error e
      else submitBatchResults parseClassHash submitOutcome fail_fast (i + 1) rest
    | .ok hash =>
      match submitOutcome i with
      | .ok job_id =>
        if job_id ≠ "dry-run" then
          (submitBatchResults parseClassHash submitOutcome fail_fast (i + 1) rest).map
            (⟨⟨hash, c.contract_name, c.package⟩,
              some job_id, some .Submitted, none⟩ :: ·)
        else
          (submitBatchResults parseClassHash submitOutcome fail_fast (i + 1) rest).map
            (⟨⟨hash, c.contract_name, c.package⟩, none, none, none⟩ :: ·)
      | .error e =>
        if fail_fast then .error e
        else
          (submitBatchResults parseClassHash submitOutcome fail_fast (i + 1) rest).map
            (⟨⟨hash, c.contract_name, c.package⟩, none, none, some e⟩ :: ·)

/-- `submit_batch` (src/src/verification.rs lines 583-699): run the
submission loop and assemble the summary; `total` is the input count
and `submitted` counts the results holding a job id. -/
def submitBatch (parseClassHash : String → Except String String)
    (submitOutcome : Nat → Except String String) (fail_fast : Bool)
    (contracts : List ContractEntry) :
    Except String BatchVerificationSummary :=
  (submitBatchResults parseClassHash submitOutcome fail_fast 0 contracts).map
    fun results =>
      ⟨contracts.length, (results.filter (·.job_id.isSome)).length, results⟩

/-- `Status` (src/src/api/client.rs lines 373-376). -/
inductive Status where
  | InProgress
  | Finished (e : ApiClientError)
deriving DecidableEq, Repr

/-- `is_is_progress` (src/src/api/client.rs lines 378-383). -/
def isIsProgress : Status → Bool
  | .InProgress => true
  | .Finished _ => false

/-- The `fetch` closure of `poll_verification_status`
(src/src/api/client.rs lines 393-399): map a `get_job_status` outcome
into the retry-control type. -/
def fetchStep (r : Except ApiClientError (Option VerificationJob)) :
    Except Status VerificationJob :=
  match r with
  | .error e => .error (.Finished e)
  | .ok none => .error .InProgress
  | .ok (some job) => .ok job

/-- The final error mapping of `poll_verification_status`
(src/src/api/client.rs lines 415-418). -/
def statusToError : Status → ApiClientError
  | .InProgress => .InProgress
  | .Finished e => e

/-- The `backon` exponential backoff configured at
src/src/api/client.rs lines 404-408: minimum delay 2 seconds, factor 2,
each delay capped at 300 seconds; `backoffDelay i` is the wait before
retry `i + 1` (in seconds). -/
def backoffDelay (i : Nat) : Nat :=
  min (2 * 2 ^ i) 300

deriving instance DecidableEq for Except

/-- Observable trace of one `poll_verification_status` run: the final
result, the number of `fetch` invocations, and the slept backoff delays
in order. -/
structure PollTrace where
  result : Except ApiClientError VerificationJob
  calls : Nat
  delays : List Nat
deriving DecidableEq, Repr

/-- The `backon` retry loop of `poll_verification_status`
(src/src/api/client.rs lines 402-418) with the status-fetch outcomes
supplied by the oracle `fetch` (the outcome of `get_job_status` at the
k-th call): a fetched record ends the loop, a `Finished` error is
returned at once because `is_is_progress` rejects it, and `InProgress`
sleeps the next backoff delay and retries while the retry budget
lasts. -/
def pollAux (fetch : Nat → Except ApiClientError (Option VerificationJob)) :
    Nat → Nat → PollTrace
  | 0, k =>
    match fetchStep (fetch k) with
    | .ok job => ⟨.ok job, 1, []⟩
    | .error st => ⟨.error (statusToError st), 1, []⟩
  | b + 1, k =>
    match fetchStep (fetch k) with
    | .ok job => ⟨.ok job, 1, []⟩
    | .error st =>
      if isIsProgress st then
        let t := pollAux fetch b (k + 1)
        ⟨t.result, t.calls + 1, backoffDelay k :: t.delays⟩
      else ⟨.error (statusToError st), 1, []⟩

/-- `poll_verification_status` (src/src/api/client.rs lines 389-419):
the retry loop with `with_max_times(20)`. -/
def pollVerificationStatus
    (fetch : Nat → Except ApiClientError (Option VerificationJob)) :
    PollTrace :=
  pollAux fetch 20 0

/-- Modelled from the spec: `poll_verification_status_with_callback` is
re-exported by src/src/api/mod.rs and called by `check`
(src/src/verification.rs lines 447-494), but its defining file is not
among the sources.  Per spec section 4.2, the engine repeatedly fetches
the job record; a caller-supplied observer callback is invoked with
every intermediate (non-terminal) record and with the final record; a
terminal failure raises the classified error at once; the retry budget
matches the engine (20 retries).  The second component collects the
records passed to the callback, in call order. -/
def pollWithCallback (fetch : Nat → VerificationJob) :
    Nat → Nat → Except ApiClientError VerificationJob × List VerificationJob
  | 0, k =>
    match (fetch k).status with
    | .Success => (.ok (fetch k), [fetch k])
    | .Fail =>
      (.error (.Verify (.VerificationFailure
        (failParsedError (fetch k).message (fetch k).status_description))), [])
    | .CompileFailed =>
      (.error (.Verify (.CompilationFailure
        (compileParsedError (fetch k).message (fetch k).status_description))), [])
    | _ => (.error .InProgress, [fetch k])
  | b + 1, k =>
    match (fetch k).status with
    | .Success => (.ok (fetch k), [fetch k])
    | .Fail =>
      (.error (.Verify (.VerificationFailure
        (failParsedError (fetch k).message (fetch k).status_description))), [])
    | .CompileFailed =>
      (.error (.Verify (.CompilationFailure
        (compileParsedError (fetch k).message (fetch k).status_description))), [])
    | _ =>
      (((pollWithCallback fetch b (k + 1)).1,
        fetch k :: (pollWithCallback fetch b (k + 1)).2))

/-- Case-insensitive substring containment: the reading of the
payload-too-large marker check used by claim C6. -/
def containsCaseInsensitive (hay pat : String) : Bool :=
  infixOfAux (pat.data.map Char.toLower) (hay.data.map Char.toLower)

/-- Spec-side text for a `Fail` job as amended: message, else status
description, else "unknown failure"; replaced by the fixed payload
message when it contains the marker in one of the two exact casings the
code checks. -/
def specFailMessage (message status_description : Option String) : String :=
  let text :=
    match message with
    | some t => t
    | none =>
      match status_description with
      | some t => t
      | none => "unknown failure"
  if strContains text "Payload too large"
      || strContains text "payload too large" then
    payloadTooLargeJobMsg
  else text

/-- Spec-side text for a `CompileFailed` job as amended: the same
fallback chain; the payload-marker substitution takes priority, and
otherwise the connectivity pattern yields the fixed
service-unavailable message. -/
def specCompileMessage (message status_description : Option String) : String :=
  let text :=
    match message with
    | some t => t
    | none =>
      match status_description with
      | some t => t
      | none => "unknown failure"
  if strContains text "Payload too large"
      || strContains text "payload too large" then
    payloadTooLargeJobMsg
  else if strContains text compileServicePattern then
    compileServiceUnavailableMsg
  else text

theorem failParsedError_eq_spec (m sd : Option String) :
    failParsedError m sd = specFailMessage m sd := by
  cases m <;> cases sd <;> rfl

theorem compileParsedError_eq_spec (m sd : Option String) :
    compileParsedError m sd = specCompileMessage m sd := by
  cases m <;> cases sd <;> rfl

/-- `buildFilesMap` is the per-file transformation in loop order. -/
theorem buildFilesMap_eq_map (files : List FileEntry) :
    buildFilesMap files = files.map (fun f =>
      (f.name,
        if isScarbTomlName f.name then filterScarbTomlContentStr f.content
        else f.content)) := by
  induction files with
  | nil => rfl
  | cons f rest ih => simp [buildFilesMap, ih]

/-- Claim C1: for every parsed job record, `get_job_status` returns the
record exactly when the status is Success, returns `none` exactly when
the status is Submitted, Processing, Compiled or Unknown, and fails
with a classified verification error exactly when the status is Fail or
CompileFailed — never `none` for a terminal status. -/
theorem C1_get_job_status_trichotomy (data : VerificationJob) :
    (getJobStatusClassify data = .ok (some data) ↔ data.status = .Success)
  ∧ (getJobStatusClassify data = .ok none ↔
      (data.status = .Submitted ∨ data.status = .Processing ∨
        data.status = .Compiled ∨ data.status = .Unknown))
  ∧ ((∃ ve : VerificationError,
        getJobStatusClassify data = .error (.Verify ve)) ↔
      (data.status = .Fail ∨ data.status = .CompileFailed)) := by
  obtain ⟨jid, st, sd, msg, ec⟩ := data
  cases st <;> simp [getJobStatusClassify]

/-- Claim C6, counterexample: the failure text "PAYLOAD TOO LARGE"
contains the payload-too-large marker case-insensitively, yet the
classified message is the raw text, not the fixed payload message. -/
theorem C6_counterexample :
    getJobStatusClassify
        ⟨"job-1", .Fail, none, some "PAYLOAD TOO LARGE", none⟩
      = .error (.Verify (.VerificationFailure "PAYLOAD TOO LARGE"))
  ∧ containsCaseInsensitive "PAYLOAD TOO LARGE" "payload too large" = true
  ∧ "PAYLOAD TOO LARGE" ≠ payloadTooLargeJobMsg := by
  refine ⟨by decide, by decide, by decide⟩

/-- Claim C6 (amended): for a Fail or CompileFailed record the
classified message is the record's message, else its status
description, else "unknown failure"; it is replaced by the fixed
payload message when it contains "Payload too large" or
"payload too large" (exactly these two casings, not arbitrary casing),
and for CompileFailed — when the payload marker is absent — a text
containing the compilation-backend connectivity pattern is replaced by
the fixed service-unavailable message. -/
theorem C6_classified_message (data : VerificationJob) :
    (data.status = .Fail →
      getJobStatusClassify data = .error (.Verify (.VerificationFailure
        (specFailMessage data.message data.status_description))))
  ∧ (data.status = .CompileFailed →
      getJobStatusClassify data = .error (.Verify (.CompilationFailure
        (specCompileMessage data.message data.status_description)))) := by
  obtain ⟨jid, st, sd, msg, ec⟩ := data
  constructor <;> intro h <;> simp only at h <;> subst h <;>
    simp [getJobStatusClassify, failParsedError_eq_spec,
      compileParsedError_eq_spec]

/-- Claim C6, witness: the spec scenario — a CompileFailed record whose
message is the connectivity pattern classifies to the fixed
service-unavailable message. -/
theorem C6_witness :
    getJobStatusClassify
        ⟨"job-2", .CompileFailed, none, some compileServicePattern, none⟩
      = .error (.Verify (.CompilationFailure compileServiceUnavailableMsg)) := by
  have h := (C6_classified_message
    ⟨"job-2", .CompileFailed, none, some compileServicePattern, none⟩).2 rfl
  have e : specCompileMessage (some compileServicePattern) none
      = compileServiceUnavailableMsg := by decide
  rw [e] at h
  exact h

/-- Claim C7: a submission receiving HTTP 413 fails with the fixed
payload-too-large message, whatever the response body holds. -/
theorem C7_http_413_fixed_message (url body : String)
    (errorField dispatchJobId : Option String) :
    verifyClassHandleResponse url 413 body errorField dispatchJobId
      = .error (.Failure ⟨url, 413, payloadTooLargeSubmitMsg⟩) := rfl

/-- Claim C9: an entry of the submission file map carries the filtered
content for a file named "Scarb.toml" (or ending in "/Scarb.toml") and
the unchanged on-disk content for every other file; every input file
yields its entry and nothing else enters the map. -/
theorem C9_files_map_content (files : List FileEntry) :
    ((buildFilesMap files).length = files.length)
  ∧ (∀ f ∈ files,
      (f.name,
        if isScarbTomlName f.name then filterScarbTomlContentStr f.content
        else f.content) ∈ buildFilesMap files)
  ∧ (∀ p ∈ buildFilesMap files, ∃ f ∈ files, p.1 = f.name ∧
      p.2 = (if isScarbTomlName f.name then filterScarbTomlContentStr f.content
        else f.content)) := by
  refine ⟨by simp [buildFilesMap_eq_map], ?_, ?_⟩
  · intro f hf
    simp only [buildFilesMap_eq_map, List.mem_map]
    exact ⟨f, hf, rfl⟩
  · intro p hp
    simp only [buildFilesMap_eq_map, List.mem_map] at hp
    obtain ⟨f, hf, hp⟩ := hp
    exact ⟨f, hf, by simp [← hp]⟩

/-- Claim C9, witness: a two-file submission — the Scarb.toml content
loses its dev-dependencies section, the source file is unchanged. -/
theorem C9_witness :
    ((buildFilesMap
        [⟨"Scarb.toml", "[package]\n[dev-dependencies]\nfoo = \"1\"\n"⟩,
          ⟨"src/lib.cairo", "fn main() {}\n"⟩]).length = 2)
  ∧ (("Scarb.toml",
      "[package]\n# [dev-dependencies] section removed for remote compilation")
        ∈ buildFilesMap
        [⟨"Scarb.toml", "[package]\n[dev-dependencies]\nfoo = \"1\"\n"⟩,
          ⟨"src/lib.cairo", "fn main() {}\n"⟩]) := by
  have h := C9_files_map_content
    [⟨"Scarb.toml", "[package]\n[dev-dependencies]\nfoo = \"1\"\n"⟩,
      ⟨"src/lib.cairo", "fn main() {}\n"⟩]
  refine ⟨h.1, ?_⟩
  have h2 := h.2.1 ⟨"Scarb.toml", "[package]\n[dev-dependencies]\nfoo = \"1\"\n"⟩
    (by simp)
  have e : (if isScarbTomlName "Scarb.toml" then
      filterScarbTomlContentStr "[package]\n[dev-dependencies]\nfoo = \"1\"\n"
      else "[package]\n[dev-dependencies]\nfoo = \"1\"\n")
    = "[package]\n# [dev-dependencies] section removed for remote compilation" := by
    decide
  rw [e] at h2
  exact h2

/-- Claim C3, counterexample: a record holding the terminal status
"Success" with completion timestamp 100, updated with the older
non-terminal status Submitted at time 200, does not keep its terminal
status: the status string becomes "Submitted"; and a repeated terminal
update re-stamps the completion timestamp from 100 to 200. -/
theorem C3_counterexample :
    ((VerificationRecord.updateStatus
        ⟨none, "job-9", "0xabc", "Token", "mainnet", "Success", 50,
          some 100, none, "2.11.2", "2.11.4", none⟩
        .Submitted 200).status ≠ "Success")
  ∧ ((VerificationRecord.updateStatus
        ⟨none, "job-9", "0xabc", "Token", "mainnet", "Success", 50,
          some 100, none, "2.11.2", "2.11.4", none⟩
        .Success 200).completed_at ≠ some 100) := by
  refine ⟨by decide, by decide⟩

/-- Claim C3 (amended): `update_status` is last-write-wins — it always
overwrites the status string with the new status (a non-terminal status
applied after a terminal one erases the terminal status), it leaves the
completion timestamp unchanged on a non-terminal update, and it
re-stamps the completion timestamp with the current time on every
terminal update, not only the first; at the database level,
`HistoryDb::update_status` writes the supplied status and completion
timestamp unconditionally to every record with the matching job id. -/
theorem C3_update_status_last_write_wins (r : VerificationRecord)
    (s : VerifyJobStatus) (now : Nat) (db : List VerificationRecord)
    (jid st : String) (ca : Option Nat) :
    ((r.updateStatus s now).status = s.toStr)
  ∧ ((r.updateStatus s now).completed_at =
      (if s.isTerminal then some now else r.completed_at))
  ∧ ((r.updateStatus s now).job_id = r.job_id)
  ∧ (HistoryDb.updateStatus db jid st ca = db.map fun x =>
      if x.job_id = jid then { x with status := st, completed_at := ca }
      else x) := by
  refine ⟨?_, ?_, ?_, rfl⟩ <;>
    simp only [VerificationRecord.updateStatus] <;> split <;> rfl

/-- Positional correspondence between one batch result and the config
entry it came from: same contract name and package, and the class hash
is the parse of the entry's hash string. -/
def batchMatches (parseClassHash : String → Except String String)
    (r : BatchVerificationResult) (c : ContractEntry) : Prop :=
  r.contract.contract_name = c.contract_name
  ∧ r.contract.package = c.package
  ∧ parseClassHash c.class_hash = .ok r.contract.class_hash

/-- When every class hash parses and fail-fast is unset, the submission
loop pushes exactly one result per contract, in order. -/
theorem submitBatchResults_all_parse
    (parse : String → Except String String)
    (so : Nat → Except String String) :
    ∀ (contracts : List ContractEntry) (i : Nat),
    (∀ c ∈ contracts, (parse c.class_hash).isOk = true) →
    ∃ rs, submitBatchResults parse so false i contracts = .ok rs
      ∧ List.Forall₂ (batchMatches parse) rs contracts := by
  intro contracts
  induction contracts with
  | nil => exact fun i _ => ⟨[], rfl, .nil⟩
  | cons c rest ih =>
    intro i h
    have hc := h c (List.mem_cons_self c rest)
    obtain ⟨hash, hhash⟩ : ∃ v, parse c.class_hash = .ok v := by
      cases hp : parse c.class_hash with
      | ok v => exact ⟨v, rfl⟩
      | error e => rw [hp] at hc; simp [Except.isOk, Except.toBool] at hc
    obtain ⟨rs, hrs, hfa⟩ :=
      ih (i + 1) (fun x hx => h x (List.mem_cons_of_mem c hx))
    cases hso : so i with
    | ok jid =>
      by_cases hdry : jid = "dry-run"
      · refine ⟨⟨⟨hash, c.contract_name, c.package⟩, none, none, none⟩ :: rs,
          ?_, .cons ⟨rfl, rfl, hhash⟩ hfa⟩
        simp [submitBatchResults, hhash, hso, hdry, hrs, Except.map]
      · refine ⟨⟨⟨hash, c.contract_name, c.package⟩, some jid,
            some .Submitted, none⟩ :: rs, ?_, .cons ⟨rfl, rfl, hhash⟩ hfa⟩
        simp [submitBatchResults, hhash, hso, hdry, hrs, Except.map]
    | error e =>
      refine ⟨⟨⟨hash, c.contract_name, c.package⟩, none, none, some e⟩ :: rs,
        ?_, .cons ⟨rfl, rfl, hhash⟩ hfa⟩
      simp [submitBatchResults, hhash, hso, hrs, Except.map]

/-- Claim C2, counterexample: one contract with an unparseable class
hash, fail-fast unset — the summary reports total 1 but carries an
empty results list, so the results list is shorter than the input and
no positional correspondence exists. -/
theorem C2_counterexample :
    submitBatch (fun _ => .error "invalid class hash")
        (fun _ => .ok "job-1") false [⟨"zzz", "Token", none⟩]
      = .ok ⟨1, 0, []⟩
  ∧ ([] : List BatchVerificationResult).length
      ≠ ([⟨"zzz", "Token", none⟩] : List ContractEntry).length := by
  exact ⟨rfl, by decide⟩

/-- Claim C2 (amended): without the fail-fast flag, `submit_batch`
returns a summary whose total equals the input count; its results list
corresponds positionally to the input contracts (same order, one entry
per contract, regardless of individual submission failures) provided
every class hash parses — a contract whose class hash fails to parse is
skipped entirely and contributes no results entry. -/
theorem C2_batch_positional (parse : String → Except String String)
    (so : Nat → Except String String) (contracts : List ContractEntry)
    (h : ∀ c ∈ contracts, (parse c.class_hash).isOk = true) :
    ∃ s, submitBatch parse so false contracts = .ok s
      ∧ s.total = contracts.length
      ∧ s.results.length = contracts.length
      ∧ List.Forall₂ (batchMatches parse) s.results contracts := by
  obtain ⟨rs, hrs, hfa⟩ := submitBatchResults_all_parse parse so contracts 0 h
  refine ⟨⟨contracts.length, (rs.filter (·.job_id.isSome)).length, rs⟩,
    ?_, rfl, hfa.length_eq, hfa⟩
  simp [submitBatch, hrs, Except.map]

/-- Claim C2, witness: the spec scenario — three contracts, the second
submission fails, no fail-fast: the summary still pairs off
positionally with all three inputs. -/
theorem C2_witness :
    ∃ s, submitBatch (fun h => .ok h)
        (fun i => if i = 1 then .error "boom" else .ok "job-A") false
        [⟨"0x1", "A", none⟩, ⟨"0x2", "B", none⟩, ⟨"0x3", "C", none⟩]
      = .ok s
      ∧ s.total = 3
      ∧ s.results.length = 3
      ∧ List.Forall₂ (batchMatches (fun h => .ok h)) s.results
          [⟨"0x1", "A", none⟩, ⟨"0x2", "B", none⟩, ⟨"0x3", "C", none⟩] :=
  C2_batch_positional _ _ _ (by decide)

theorem backoffDelay_le (i : Nat) : backoffDelay i ≤ 300 :=
  min_le_right _ _

theorem backoffDelay_mono (i : Nat) : backoffDelay i ≤ backoffDelay (i + 1) := by
  unfold backoffDelay
  refine min_le_min ?_ le_rfl
  exact Nat.mul_le_mul_left 2 (Nat.pow_le_pow_right (by norm_num) (Nat.le_succ i))

/-- Structure of a poll trace: at budget `b` starting from attempt `k`,
the delay list is at most `b` long, every delay lies between the next
backoff value and the 300-second cap, its head (if any) is the next
backoff value, it is non-decreasing, and at most `b + 1` fetches
happen. -/
theorem pollAux_delays_spec
    (fetch : Nat → Except ApiClientError (Option VerificationJob)) :
    ∀ (b k : Nat),
    ((pollAux fetch b k).delays.length ≤ b)
  ∧ ((pollAux fetch b k).calls ≤ b + 1)
  ∧ (∀ d ∈ (pollAux fetch b k).delays, backoffDelay k ≤ d ∧ d ≤ 300)
  ∧ ((pollAux fetch b k).delays.head? = none ∨
      (pollAux fetch b k).delays.head? = some (backoffDelay k))
  ∧ List.Chain' (· ≤ ·) (pollAux fetch b k).delays := by
  intro b
  induction b with
  | zero =>
    intro k
    cases hf : fetchStep (fetch k) with
    | ok job => simp [pollAux, hf]
    | error st => cases st <;> simp [pollAux, hf, isIsProgress]
  | succ b ih =>
    intro k
    cases hf : fetchStep (fetch k) with
    | ok job => simp [pollAux, hf]
    | error st =>
      cases st with
      | Finished e => simp [pollAux, hf, isIsProgress]
      | InProgress =>
        obtain ⟨hlen, hcalls, hmem, hhead, hchain⟩ := ih (k + 1)
        have hunf : pollAux fetch (b + 1) k =
            ⟨(pollAux fetch b (k + 1)).result,
              (pollAux fetch b (k + 1)).calls + 1,
              backoffDelay k :: (pollAux fetch b (k + 1)).delays⟩ := by
          simp [pollAux, hf, isIsProgress]
        rw [hunf]
        refine ⟨by simpa using hlen, by simpa using hcalls, ?_, ?_, ?_⟩
        · intro d hd
          rcases List.mem_cons.mp hd with rfl | hd
          · exact ⟨le_rfl, backoffDelay_le k⟩
          · exact ⟨le_trans (backoffDelay_mono k) (hmem d hd).1, (hmem d hd).2⟩
        · right; rfl
        · rw [List.chain'_cons']
          refine ⟨?_, hchain⟩
          intro x hx
          rcases hhead with hnone | hsome
          · rw [hnone] at hx; cases hx
          · rw [hsome] at hx
            cases hx
            exact backoffDelay_mono k

/-- A run in which every fetch reports "not yet done" exhausts the
budget: `b + 1` fetches, a delay per retry, and the distinct
in-progress outcome. -/
theorem pollAux_all_inprogress
    (fetch : Nat → Except ApiClientError (Option VerificationJob))
    (h : ∀ i, fetch i = .ok none) :
    ∀ (b k : Nat),
    ((pollAux fetch b k).result = .error .InProgress)
  ∧ ((pollAux fetch b k).calls = b + 1)
  ∧ ((pollAux fetch b k).delays.length = b) := by
  intro b
  induction b with
  | zero => intro k; simp [pollAux, h k, fetchStep, isIsProgress, statusToError]
  | succ b ih =>
    intro k
    obtain ⟨hres, hcalls, hlen⟩ := ih (k + 1)
    have hunf : pollAux fetch (b + 1) k =
        ⟨(pollAux fetch b (k + 1)).result,
          (pollAux fetch b (k + 1)).calls + 1,
          backoffDelay k :: (pollAux fetch b (k + 1)).delays⟩ := by
      simp [pollAux, h k, fetchStep, isIsProgress]
    rw [hunf]
    exact ⟨hres, by simp [hcalls], by simp [hlen]⟩

/-- Claim C4: the poll engine makes at most 20 retry attempts (at most
21 fetches) before yielding the distinct in-progress outcome; its
backoff delays are non-decreasing, start at 2 seconds, and are each
capped at 300 seconds. -/
theorem C4_poll_backoff_budget
    (fetch : Nat → Except ApiClientError (Option VerificationJob)) :
    ((pollVerificationStatus fetch).calls ≤ 21)
  ∧ ((pollVerificationStatus fetch).delays.length ≤ 20)
  ∧ ((pollVerificationStatus fetch).delays.head? = none ∨
      (pollVerificationStatus fetch).delays.head? = some 2)
  ∧ (∀ d ∈ (pollVerificationStatus fetch).delays, d ≤ 300)
  ∧ List.Chain' (· ≤ ·) (pollVerificationStatus fetch).delays
  ∧ ((∀ i, fetch i = .ok none) →
      (pollVerificationStatus fetch).result = .error .InProgress
        ∧ (pollVerificationStatus fetch).calls = 21) := by
  obtain ⟨hlen, hcalls, hmem, hhead, hchain⟩ := pollAux_delays_spec fetch 20 0
  refine ⟨hcalls, hlen, ?_, fun d hd => (hmem d hd).2, hchain, ?_⟩
  · rcases hhead with hnone | hsome
    · exact Or.inl hnone
    · exact Or.inr hsome
  · intro hip
    obtain ⟨hres, hc, _⟩ := pollAux_all_inprogress fetch hip 20 0
    exact ⟨hres, hc⟩

/-- Claim C4, witness: a service that never finishes — the engine stops
with the in-progress outcome after exactly 21 fetches (20 retries). -/
theorem C4_witness :
    ((pollVerificationStatus (fun _ => .ok none)).calls ≤ 21)
  ∧ ((pollVerificationStatus (fun _ => .ok none)).result
      = .error ApiClientError.InProgress
      ∧ (pollVerificationStatus (fun _ => .ok none)).calls = 21) :=
  ⟨(C4_poll_backoff_budget (fun _ => .ok none)).1,
    (C4_poll_backoff_budget (fun _ => .ok none)).2.2.2.2.2 (fun _ => rfl)⟩

/-- A fetch failure at attempt `j` (after `j` in-progress fetches)
stops the loop at once: exactly `j + 1` fetches and the fetched error
as the result. -/
theorem pollAux_failure_stops
    (fetch : Nat → Except ApiClientError (Option VerificationJob))
    (e : ApiClientError) :
    ∀ (j b k : Nat), j ≤ b →
    (∀ i, i < j → fetch (k + i) = .ok none) →
    fetch (k + j) = .error e →
    ((pollAux fetch b k).result = .error e)
  ∧ ((pollAux fetch b k).calls = j + 1) := by
  intro j
  induction j with
  | zero =>
    intro b k _ _ hj
    have hk : fetch k = .error e := by simpa using hj
    cases b <;> simp [pollAux, hk, fetchStep, isIsProgress, statusToError]
  | succ j ihj =>
    intro b k hb hlt hj
    have h0 : fetch k = .ok none := by simpa using hlt 0 (Nat.succ_pos j)
    cases b with
    | zero => omega
    | succ b' =>
      have hlt' : ∀ i, i < j → fetch (k + 1 + i) = .ok none := by
        intro i hi
        have e1 : k + 1 + i = k + (i + 1) := by omega
        rw [e1]
        exact hlt (i + 1) (by omega)
      have hj' : fetch (k + 1 + j) = .error e := by
        have e1 : k + 1 + j = k + (j + 1) := by omega
        rw [e1]
        exact hj
      obtain ⟨hres, hcalls⟩ := ihj b' (k + 1) (by omega) hlt' hj'
      have hunf : pollAux fetch (b' + 1) k =
          ⟨(pollAux fetch b' (k + 1)).result,
            (pollAux fetch b' (k + 1)).calls + 1,
            backoffDelay k :: (pollAux fetch b' (k + 1)).delays⟩ := by
        simp [pollAux, h0, fetchStep, isIsProgress]
      rw [hunf]
      exact ⟨hres, by simp [hcalls]⟩

/-- Claim C5: when a status fetch reports a classified terminal failure
at attempt `j` (the earlier fetches having reported "not yet done"),
polling returns that very error with exactly `j + 1` fetches — the
failure is never retried; only the in-progress outcome retries. -/
theorem C5_terminal_failure_short_circuits
    (fetch : Nat → Except ApiClientError (Option VerificationJob))
    (ve : VerificationError) (j : Nat) (hj : j ≤ 20)
    (hbefore : ∀ i, i < j → fetch i = .ok none)
    (hfail : fetch j = .error (.Verify ve)) :
    ((pollVerificationStatus fetch).result = .error (.Verify ve))
  ∧ ((pollVerificationStatus fetch).calls = j + 1) :=
  pollAux_failure_stops fetch (.Verify ve) j 20 0 hj
    (fun i hi => by simpa using hbefore i hi) (by simpa using hfail)

/-- Claim C5, witness: one in-progress fetch, then a verification
failure — the engine stops after the second fetch with that failure. -/
theorem C5_witness :
    ((pollVerificationStatus (fun i => if i = 0 then .ok none
        else .error (.Verify (.VerificationFailure "boom")))).result
      = .error (.Verify (.VerificationFailure "boom")))
  ∧ ((pollVerificationStatus (fun i => if i = 0 then .ok none
        else .error (.Verify (.VerificationFailure "boom")))).calls = 2) :=
  C5_terminal_failure_short_circuits
    (fun i => if i = 0 then .ok none
      else .error (.Verify (.VerificationFailure "boom")))
    (.VerificationFailure "boom") 1 (by decide)
    (fun i hi => by
      have h0 : i = 0 := by omega
      subst h0
      rfl)
    rfl

/-- One non-terminal observation: the callback sees the record and the
engine retries. -/
theorem pollWithCallback_nonterminal_step (fetch : Nat → VerificationJob)
    (b k : Nat)
    (h : (fetch k).status = .Submitted ∨ (fetch k).status = .Processing ∨
      (fetch k).status = .Compiled ∨ (fetch k).status = .Unknown) :
    pollWithCallback fetch (b + 1) k
      = ((pollWithCallback fetch b (k + 1)).1,
          fetch k :: (pollWithCallback fetch b (k + 1)).2) := by
  rcases h with h | h | h | h <;>
    (simp only [pollWithCallback]; rw [h])

/-- A success observation ends the poll; the callback sees the final
record. -/
theorem pollWithCallback_success_step (fetch : Nat → VerificationJob)
    (b k : Nat) (h : (fetch k).status = .Success) :
    pollWithCallback fetch b k = (.ok (fetch k), [fetch k]) := by
  cases b <;> (simp only [pollWithCallback]; rw [h])

/-- Claim C8: when consecutive fetches observe Submitted and then
Success, the observer callback fires exactly twice — once with the
intermediate record and finally with the Success record — and the poll
returns the Success record. -/
theorem C8_callback_fires_twice (fetch : Nat → VerificationJob)
    (h0 : (fetch 0).status = .Submitted)
    (h1 : (fetch 1).status = .Success) :
    (pollWithCallback fetch 20 0 = (.ok (fetch 1), [fetch 0, fetch 1]))
  ∧ ((pollWithCallback fetch 20 0).2.length = 2)
  ∧ ((pollWithCallback fetch 20 0).2.getLast? = some (fetch 1)) := by
  have step := pollWithCallback_nonterminal_step fetch 19 0 (Or.inl h0)
  have fin := pollWithCallback_success_step fetch 19 1 h1
  have e : pollWithCallback fetch 20 0 = (.ok (fetch 1), [fetch 0, fetch 1]) := by
    rw [show (20 : Nat) = 19 + 1 from rfl, step, fin]
  exact ⟨e, by simp [e], by simp [e]⟩

/-- Claim C8, witness: a concrete two-observation poll — callback trace
is exactly the Submitted record followed by the Success record. -/
theorem C8_witness :
    pollWithCallback (fun i => if i = 0
        then ⟨"job-7", .Submitted, none, none, none⟩
        else ⟨"job-7", .Success, none, none, none⟩) 20 0
      = (.ok ⟨"job-7", .Success, none, none, none⟩,
          [⟨"job-7", .Submitted, none, none, none⟩,
            ⟨"job-7", .Success, none, none, none⟩]) :=
  (C8_callback_fires_twice (fun i => if i = 0
      then ⟨"job-7", .Submitted, none, none, none⟩
      else ⟨"job-7", .Success, none, none, none⟩) rfl rfl).1

theorem finishLine_subset (cur : List Char) : ∀ x ∈ finishLine cur, x ∈ cur := by
  intro x hx
  cases cur with
  | nil => simp [finishLine] at hx
  | cons c cs =>
    simp only [finishLine] at hx
    by_cases hc : c = '\r'
    · rw [if_pos hc] at hx
      exact List.mem_cons_of_mem c (List.mem_reverse.mp hx)
    · rw [if_neg hc] at hx
      exact List.mem_reverse.mp hx

theorem rustLinesAux_no_newline :
    ∀ (t cur : List Char), '\n' ∉ cur → ∀ l ∈ rustLinesAux cur t, '\n' ∉ l := by
  intro t
  induction t with
  | nil =>
    intro cur hcur l hl
    simp only [rustLinesAux] at hl
    split at hl
    · cases hl
    · have he : l = cur.reverse := by simpa using hl
      subst he
      simpa [List.mem_reverse] using hcur
  | cons c rest ih =>
    intro cur hcur l hl
    simp only [rustLinesAux] at hl
    by_cases hc : c = '\n'
    · rw [if_pos hc] at hl
      rcases List.mem_cons.mp hl with rfl | hl
      · intro hx
        exact hcur (finishLine_subset cur _ hx)
      · exact ih [] (by simp) l hl
    · rw [if_neg hc] at hl
      refine ih (c :: cur) ?_ l hl
      intro hx
      rcases List.mem_cons.mp hx with h | h
      · exact hc h.symm
      · exact hcur h

theorem rustLinesAux_no_cr :
    ∀ (t cur : List Char), '\r' ∉ cur → '\r' ∉ t →
      ∀ l ∈ rustLinesAux cur t, '\r' ∉ l := by
  intro t
  induction t with
  | nil =>
    intro cur hcur _ l hl
    simp only [rustLinesAux] at hl
    split at hl
    · cases hl
    · have he : l = cur.reverse := by simpa using hl
      subst he
      simpa [List.mem_reverse] using hcur
  | cons c rest ih =>
    intro cur hcur ht l hl
    have hc1 : c ≠ '\r' := fun h => ht (by simp [h])
    have ht1 : '\r' ∉ rest := fun h => ht (List.mem_cons_of_mem c h)
    simp only [rustLinesAux] at hl
    by_cases hc : c = '\n'
    · rw [if_pos hc] at hl
      rcases List.mem_cons.mp hl with rfl | hl
      · intro hx
        exact hcur (finishLine_subset cur _ hx)
      · exact ih [] (by simp) ht1 l hl
    · rw [if_neg hc] at hl
      refine ih (c :: cur) ?_ ht1 l hl
      intro hx
      rcases List.mem_cons.mp hx with h | h
      · exact hc1 h.symm
      · exact hcur h

theorem filterScarbLines_mem :
    ∀ (ls : List (List Char)) (b : Bool) (l : List Char),
      l ∈ filterScarbLines b ls →
      l = devDepsComment ∨ l = [] ∨ l ∈ ls := by
  intro ls
  induction ls with
  | nil => intro b l hl; cases hl
  | cons line rest ih =>
    intro b l hl
    have lift : ∀ b', l ∈ filterScarbLines b' rest →
        l = devDepsComment ∨ l = [] ∨ l ∈ line :: rest := by
      intro b' hm
      rcases ih b' l hm with h | h | h
      · exact Or.inl h
      · exact Or.inr (Or.inl h)
      · exact Or.inr (Or.inr (List.mem_cons_of_mem line h))
    simp only [filterScarbLines] at hl
    split_ifs at hl
    · rcases List.mem_cons.mp hl with rfl | hl
      · exact Or.inl rfl
      · exact lift true hl
    · rcases List.mem_cons.mp hl with rfl | hl
      · exact Or.inr (Or.inl rfl)
      · rcases List.mem_cons.mp hl with rfl | hl
        · exact Or.inr (Or.inr (List.mem_cons_self ..))
        · exact lift false hl
    · rcases List.mem_cons.mp hl with rfl | hl
      · exact Or.inr (Or.inr (List.mem_cons_self ..))
      · exact lift false hl
    · exact lift true hl
    · rcases List.mem_cons.mp hl with rfl | hl
      · exact Or.inr (Or.inr (List.mem_cons_self ..))
      · exact lift b hl

theorem filterScarbLines_no_devheader :
    ∀ (ls : List (List Char)) (b : Bool) (l : List Char),
      l ∈ filterScarbLines b ls → devDepsHeaderLine l = false := by
  intro ls
  induction ls with
  | nil => intro b l hl; cases hl
  | cons line rest ih =>
    intro b l hl
    simp only [filterScarbLines] at hl
    split_ifs at hl with h1 h2 h3 h4
    · rcases List.mem_cons.mp hl with rfl | hl
      · decide
      · exact ih _ l hl
    · rcases List.mem_cons.mp hl with rfl | hl
      · decide
      · rcases List.mem_cons.mp hl with rfl | hl
        · simpa using (Bool.and_eq_true _ _ |>.mp h2).2
        · exact ih _ l hl
    · rcases List.mem_cons.mp hl with rfl | hl
      · simpa using (Bool.and_eq_true _ _ |>.mp h2).2
      · exact ih _ l hl
    · exact ih _ l hl
    · rcases List.mem_cons.mp hl with rfl | hl
      · simpa using h1
      · exact ih _ l hl

theorem filterScarbLines_id :
    ∀ (ls : List (List Char)),
      (∀ l ∈ ls, devDepsHeaderLine l = false) →
      filterScarbLines false ls = ls := by
  intro ls
  induction ls with
  | nil => intro _; rfl
  | cons line rest ih =>
    intro h
    have hline : devDepsHeaderLine line = false :=
      h line (List.mem_cons_self ..)
    have hrest := ih (fun l hl => h l (List.mem_cons_of_mem line hl))
    simp only [filterScarbLines, hline]
    split_ifs <;> simp_all

theorem filterScarbLines_false_ne_nil (line : List Char)
    (rest : List (List Char)) :
    filterScarbLines false (line :: rest) ≠ [] := by
  simp only [filterScarbLines]
  split_ifs <;> simp_all

theorem filterScarbLines_getLast_empty :
    ∀ (ls : List (List Char)) (b : Bool),
      (filterScarbLines b ls).getLast? = some ([] : List Char) →
      ls.getLast? = some ([] : List Char) := by
  intro ls
  induction ls with
  | nil => intro b h; simp [filterScarbLines] at h
  | cons line rest ih =>
    intro b h
    have lift : rest.getLast? = some ([] : List Char) →
        (line :: rest).getLast? = some ([] : List Char) := by
      intro hr
      cases rest with
      | nil => simp at hr
      | cons r rs => rw [List.getLast?_cons_cons]; exact hr
    simp only [filterScarbLines] at h
    split_ifs at h with h1 h2 h3 h4
    · cases hF : filterScarbLines true rest with
      | nil =>
        rw [hF] at h
        have : devDepsComment = ([] : List Char) := by simpa using h
        exact absurd this (by decide)
      | cons x xs =>
        rw [hF, List.getLast?_cons_cons] at h
        exact lift (ih true (by rw [hF]; exact h))
    · rw [List.getLast?_cons_cons] at h
      cases hF : filterScarbLines false rest with
      | nil =>
        rw [hF] at h
        have hline : line = ([] : List Char) := by simpa using h
        have hs : sectionHeaderLine line = true :=
          (Bool.and_eq_true _ _ |>.mp h2).1
        rw [hline] at hs
        exact absurd hs (by decide)
      | cons x xs =>
        rw [hF, List.getLast?_cons_cons] at h
        exact lift (ih false (by rw [hF]; exact h))
    · cases hF : filterScarbLines false rest with
      | nil =>
        rw [hF] at h
        have hline : line = ([] : List Char) := by simpa using h
        have hs : sectionHeaderLine line = true :=
          (Bool.and_eq_true _ _ |>.mp h2).1
        rw [hline] at hs
        exact absurd hs (by decide)
      | cons x xs =>
        rw [hF, List.getLast?_cons_cons] at h
        exact lift (ih false (by rw [hF]; exact h))
    · exact lift (ih true h)
    · have hb : b = false := by simpa using h4
      subst hb
      cases hF : filterScarbLines false rest with
      | nil =>
        cases rest with
        | nil =>
          rw [hF] at h
          have hline : line = ([] : List Char) := by simpa using h
          rw [hline]
          rfl
        | cons r rs => exact absurd hF (filterScarbLines_false_ne_nil r rs)
      | cons x xs =>
        rw [hF, List.getLast?_cons_cons] at h
        exact lift (ih false (by rw [hF]; exact h))

theorem rustLinesAux_no_newline_eq :
    ∀ (l cur : List Char), '\n' ∉ l →
      rustLinesAux cur l =
        (if cur.reverse ++ l = [] then [] else [cur.reverse ++ l]) := by
  intro l
  induction l with
  | nil =>
    intro cur _
    cases cur <;> simp [rustLinesAux]
  | cons c t ih =>
    intro cur hnl
    have hc : c ≠ '\n' := fun h => hnl (by simp [h])
    have ht : '\n' ∉ t := fun h => hnl (List.mem_cons_of_mem c h)
    have e : (c :: cur).reverse ++ t = cur.reverse ++ c :: t := by
      simp [List.append_assoc]
    simp only [rustLinesAux, if_neg hc]
    rw [ih (c :: cur) ht, e]

theorem rustLinesAux_split :
    ∀ (l cur t : List Char), '\n' ∉ l →
      rustLinesAux cur (l ++ '\n' :: t) =
        finishLine (l.reverse ++ cur) :: rustLinesAux [] t := by
  intro l
  induction l with
  | nil => intro cur t _; simp [rustLinesAux]
  | cons c m ih =>
    intro cur t hnl
    have hc : c ≠ '\n' := fun h => hnl (by simp [h])
    have hm : '\n' ∉ m := fun h => hnl (List.mem_cons_of_mem c h)
    have e : m.reverse ++ c :: cur = (c :: m).reverse ++ cur := by
      simp [List.append_assoc]
    simp only [List.cons_append, rustLinesAux, if_neg hc]
    exact (ih (c :: cur) t hm).trans (by rw [e])

theorem finishLine_reverse_of_no_cr (l : List Char) (h : '\r' ∉ l) :
    finishLine l.reverse = l := by
  cases hl : l.reverse with
  | nil =>
    have he : l = [] := List.reverse_eq_nil_iff.mp hl
    subst he
    rfl
  | cons a t =>
    have ha : a ∈ l := by
      have : a ∈ l.reverse := by rw [hl]; exact List.mem_cons_self ..
      exact List.mem_reverse.mp this
    have har : a ≠ '\r' := fun hr => h (hr ▸ ha)
    simp only [finishLine, if_neg har]
    rw [← hl, List.reverse_reverse]

theorem rustLines_joinNL :
    ∀ (ls : List (List Char)),
      (∀ l ∈ ls, '\n' ∉ l ∧ '\r' ∉ l) →
      ls.getLast? ≠ some ([] : List Char) →
      rustLines (joinNL ls) = ls := by
  intro ls
  induction ls with
  | nil => intro _ _; rfl
  | cons l rest ih =>
    intro hmem hlast
    cases rest with
    | nil =>
      have hl := hmem l (List.mem_cons_self ..)
      have hne : l ≠ [] := by
        intro h
        exact hlast (by rw [h]; rfl)
      show rustLinesAux [] l = [l]
      rw [rustLinesAux_no_newline_eq l [] hl.1]
      simp [hne]
    | cons r rs =>
      have hl := hmem l (List.mem_cons_self ..)
      have hmem' : ∀ x ∈ r :: rs, '\n' ∉ x ∧ '\r' ∉ x :=
        fun x hx => hmem x (List.mem_cons_of_mem l hx)
      have hlast' : (r :: rs).getLast? ≠ some ([] : List Char) := by
        rwa [List.getLast?_cons_cons] at hlast
      show rustLinesAux [] (l ++ '\n' :: joinNL (r :: rs)) = l :: r :: rs
      rw [rustLinesAux_split l [] (joinNL (r :: rs)) hl.1, List.append_nil,
        finishLine_reverse_of_no_cr l hl.2]
      exact congrArg (l :: ·) (ih hmem' hlast')

/-- Claim C10, counterexample: on the input "a\n\n" (a line followed by
a final empty line) one filter pass yields "a\n" and a second pass
yields "a" — the function is not idempotent as stated, because the
line-split/re-join boundary drops a trailing empty line even though no
dev-dependencies header is involved. -/
theorem C10_counterexample :
    filterScarbTomlContent (filterScarbTomlContent ("a\n\n".data))
      ≠ filterScarbTomlContent ("a\n\n".data) := by
  decide

/-- Claim C10 (amended): `filter_scarb_toml_content` composed with
itself agrees with one application on every input that contains no
carriage return and whose line split does not end in an empty line (the
output indeed never contains a line whose trimmed start is
"[dev-dependencies]", so a second pass keeps every line; only the
join/split boundary — a trailing empty line, or a carriage return
re-absorbed before a re-joined line feed — can change a second pass). -/
theorem C10_filter_idempotent_amended (s : List Char)
    (hr : '\r' ∉ s)
    (hl : (rustLines s).getLast? ≠ some ([] : List Char)) :
    filterScarbTomlContent (filterScarbTomlContent s)
      = filterScarbTomlContent s := by
  have hmem : ∀ l ∈ filterScarbLines false (rustLines s),
      '\n' ∉ l ∧ '\r' ∉ l := by
    intro l hlm
    rcases filterScarbLines_mem (rustLines s) false l hlm with h | h | h
    · subst h
      exact ⟨by decide, by decide⟩
    · subst h
      exact ⟨by simp, by simp⟩
    · exact ⟨rustLinesAux_no_newline s [] (by simp) l h,
        rustLinesAux_no_cr s [] (by simp) hr l h⟩
  have hdev : ∀ l ∈ filterScarbLines false (rustLines s),
      devDepsHeaderLine l = false :=
    fun l hlm => filterScarbLines_no_devheader (rustLines s) false l hlm
  have hlast2 : (filterScarbLines false (rustLines s)).getLast?
      ≠ some ([] : List Char) :=
    fun hc => hl (filterScarbLines_getLast_empty (rustLines s) false hc)
  show joinNL (filterScarbLines false
    (rustLines (joinNL (filterScarbLines false (rustLines s)))))
      = joinNL (filterScarbLines false (rustLines s))
  rw [rustLines_joinNL _ hmem hlast2, filterScarbLines_id _ hdev]

/-- Claim C10, witness: a manifest with a dev-dependencies section, no
carriage returns and a nonempty final line — two passes equal one. -/
theorem C10_witness :
    filterScarbTomlContent (filterScarbTomlContent
      ("[package]\nname = \"x\"\n[dev-dependencies]\nfoo = \"1\"\n[scripts]\nrun = \"x\"".data))
      = filterScarbTomlContent
      ("[package]\nname = \"x\"\n[dev-dependencies]\nfoo = \"1\"\n[scripts]\nrun = \"x\"".data) :=
  C10_filter_idempotent_amended _ (by decide) (by decide)

end Voyager
